import Mathlib

/-!
Verification of the cross-actor debug mutex of the `tractor` runtime.

The development shallowly embeds `src/tractor/_debug.py` and
`src/tractor/_state.py`: the `trio.StrictFIFOLock` stored under the
`'_debug_lock'` key of the root actor's statespace, the stdin-hijack RPC
`_hijack_stdin_relay_to_child`, the breakpoint coroutine `_bp` inside
`_breakpoint`, the child-side task `wait_for_parent_stdin_hijack`, the
post-mortem guard `_maybe_enter_pm`, and `_state.current_actor`.
Stateful trio code becomes explicit step functions on small state types;
fallible code returns a result paired with an optional Python exception.
-/

namespace Tractor

/-- Identifier of a trio task (one `_hijack_stdin_relay_to_child` invocation,
one `_lock` task, ...). -/
abbrev TaskId := Nat

/-- Python exceptions relevant to the embedded code paths. -/
inductive PyExc where
  /-- RuntimeError, raised by `_state.current_actor` on an uninitialised process
  and by trio when a lock is released by a task that does not own it. -/
  | runtimeError
  /-- trio.TooSlowError, raised by `trio.fail_after` past its deadline. -/
  | tooSlowError
deriving Repr, DecidableEq

/-- State of a `trio.StrictFIFOLock` — the `'_debug_lock'` that
`_acquire_debug_lock` installs in the root actor's statespace via
`setdefault`.  trio documents this lock as fair and strict: tasks acquire it
in exact first-come-first-served order and `release` hands ownership directly
to the longest-waiting task, so the state is the optional holding task plus
the FIFO wait queue. -/
structure FIFOLock where
  holder : Option TaskId
  waiters : List TaskId
deriving Repr, DecidableEq

/-- The unlocked lock, as freshly constructed by `trio.StrictFIFOLock()`. -/
def FIFOLock.init : FIFOLock := ⟨none, []⟩

/-- `lock.locked()`. -/
def FIFOLock.locked (lk : FIFOLock) : Bool := lk.holder.isSome

/-- `await lock.acquire()` issued by task `t`: take the lock when it is free,
otherwise park at the tail of the FIFO wait queue. -/
def FIFOLock.acquire (lk : FIFOLock) (t : TaskId) : FIFOLock :=
  match lk.holder with
  | none => { lk with holder := some t }
  | some _ => { lk with waiters := lk.waiters ++ [t] }

/-- `lock.release()` by the owner: ownership is handed directly to the first
queued waiter when there is one, otherwise the lock becomes free. -/
def FIFOLock.release (lk : FIFOLock) : FIFOLock :=
  match lk.waiters with
  | [] => { holder := none, waiters := [] }
  | w :: rest => { holder := some w, waiters := rest }

/-- `lock.release()` as called by task `t`: trio raises RuntimeError when the
caller does not own the lock, leaving the lock state unchanged. -/
def FIFOLock.releaseBy (lk : FIFOLock) (t : TaskId) : FIFOLock × Option PyExc :=
  if lk.holder = some t then (lk.release, none) else (lk, some PyExc.runtimeError)

/-- Cancellation of a pending `await lock.acquire()` by task `t`: trio removes
the parked task from the wait queue and re-raises `Cancelled` inside it. -/
def FIFOLock.cancelWait (lk : FIFOLock) (t : TaskId) : FIFOLock :=
  { lk with waiters := lk.waiters.erase t }

/-- External events on the debug lock: some task requests it, or the current
holder releases it. -/
inductive LockEvent where
  | request (t : TaskId)
  | release
deriving Repr, DecidableEq

/-- Effect of one lock event on the lock state. -/
def stepLock (lk : FIFOLock) : LockEvent → FIFOLock
  | LockEvent.request t => lk.acquire t
  | LockEvent.release => lk.release

/-- The task, if any, that acquires the lock at this event: a request is
granted immediately when the lock is free; a release grants to the head of
the wait queue. -/
def grantOf (lk : FIFOLock) : LockEvent → Option TaskId
  | LockEvent.request t => if lk.holder = none then some t else none
  | LockEvent.release => lk.waiters.head?

/-- All lock acquisitions along an event sequence, in temporal order. -/
def grants (lk : FIFOLock) : List LockEvent → List TaskId
  | [] => []
  | e :: es => (grantOf lk e).toList ++ grants (stepLock lk e) es

/-- Event sequences the trio runtime can actually produce: a task that is
already parked on the lock, or currently holds it, is suspended and cannot
issue another request. -/
def validEvents (lk : FIFOLock) : List LockEvent → Bool
  | [] => true
  | LockEvent.request t :: es =>
      !(decide (t ∈ lk.waiters)) && !(decide (lk.holder = some t)) &&
        validEvents (lk.acquire t) es
  | LockEvent.release :: es => validEvents lk.release es

theorem grants_cons (lk : FIFOLock) (e : LockEvent) (es : List LockEvent) :
    grants lk (e :: es) = (grantOf lk e).toList ++ grants (stepLock lk e) es := rfl

/-- C1: the debug mutex is strictly FIFO-fair.  If request `t1` stands before
request `t2` in the wait queue of the (well-formed) lock state, then along any
event sequence the runtime can produce, `t2` acquires the lock only after `t1`
has: `t1` appears in the grant list, strictly before `t2`. -/
theorem debug_lock_fifo_fair (t1 t2 : TaskId) (evs : List LockEvent)
    (lk : FIFOLock)
    (hnd : lk.waiters.Nodup)
    (hfree : lk.holder = none → lk.waiters = [])
    (hhw : ∀ s, lk.holder = some s → s ∉ lk.waiters)
    (hsub : List.Sublist [t1, t2] lk.waiters)
    (hv : validEvents lk evs = true)
    (h2 : t2 ∈ grants lk evs) :
    t1 ∈ grants lk evs ∧
      (grants lk evs).indexOf t1 < (grants lk evs).indexOf t2 := by
  induction evs generalizing lk with
  | nil => simp [grants] at h2
  | cons e es ih =>
    have ht12 : t1 ≠ t2 := by
      have hnodup : List.Nodup [t1, t2] := hnd.sublist hsub
      simpa using (List.nodup_cons.mp hnodup).1
    cases e with
    | request t =>
      simp only [validEvents, Bool.and_eq_true, Bool.not_eq_true',
        decide_eq_false_iff_not] at hv
      obtain ⟨⟨hnotin, hnothold⟩, hv2⟩ := hv
      cases hh : lk.holder with
      | none =>
        have hwe := hfree hh
        rw [hwe] at hsub
        exact absurd (List.eq_nil_of_sublist_nil hsub) (by simp)
      | some s =>
        have hlk2 : lk.acquire t = { lk with waiters := lk.waiters ++ [t] } := by
          simp [FIFOLock.acquire, hh]
        have hstep : stepLock lk (LockEvent.request t) = lk.acquire t := rfl
        have hgr : grantOf lk (LockEvent.request t) = none := by
          simp [grantOf, hh]
        rw [grants_cons, hstep, hgr, Option.toList_none, List.nil_append] at h2 ⊢
        refine ih (lk.acquire t) ?_ ?_ ?_ ?_ ?_ h2
        · rw [hlk2]
          refine List.Nodup.append hnd (List.nodup_singleton t) ?_
          intro x hx hx2
          rw [List.mem_singleton] at hx2
          exact hnotin (hx2 ▸ hx)
        · intro h0
          rw [hlk2] at h0
          simp only at h0
          rw [hh] at h0
          cases h0
        · intro u hu
          rw [hlk2] at hu ⊢
          simp only at hu
          rw [hh] at hu
          cases hu
          simp only [List.mem_append, List.mem_singleton]
          rintro (hus | hus)
          · exact hhw s hh hus
          · rw [hus] at hh
            rw [hh] at hnothold
            exact hnothold rfl
        · rw [hlk2]
          exact hsub.trans (List.sublist_append_left _ _)
        · exact hv2
    | release =>
      cases hw : lk.waiters with
      | nil =>
        rw [hw] at hsub
        exact absurd (List.eq_nil_of_sublist_nil hsub) (by simp)
      | cons w rest =>
        have hrel : lk.release = { holder := some w, waiters := rest } := by
          simp [FIFOLock.release, hw]
        have hstep : stepLock lk LockEvent.release = lk.release := rfl
        have hgr : grantOf lk LockEvent.release = some w := by
          simp [grantOf, hw]
        have hndr : List.Nodup (w :: rest) := hw ▸ hnd
        have hwrest : w ∉ rest := (List.nodup_cons.mp hndr).1
        have hvr : validEvents lk.release es = true := by
          simpa [validEvents] using hv
        -- the head of the queue is never t2 while t1 still stands before it
        have hwne2 : w ≠ t2 := by
          intro he
          rw [hw, he] at hsub
          cases hsub with
          | cons _ h =>
            have : t2 ∈ rest := h.subset (by simp)
            rw [he] at hwrest
            exact hwrest this
          | cons₂ _ h =>
            -- here the heads coincide, forcing t1 = t2
            exact ht12 rfl
        rw [grants_cons, hstep, hgr, Option.toList_some, List.singleton_append]
          at h2 ⊢
        by_cases hw1 : w = t1
        · subst hw1
          constructor
          · exact List.mem_cons_self _ _
          · rw [List.indexOf_cons_self]
            rw [List.indexOf_cons_ne _ (by exact fun h => hwne2 h)]
            exact Nat.succ_pos _
        · have hsubr : List.Sublist [t1, t2] rest := by
            rw [hw] at hsub
            cases hsub with
            | cons _ h => exact h
            | cons₂ _ h => exact absurd rfl hw1
          have h2r : t2 ∈ grants lk.release es := by
            rcases List.mem_cons.mp h2 with h | h
            · exact absurd h.symm hwne2
            · exact h
          have hrec := ih lk.release ?_ ?_ ?_ ?_ hvr h2r
          · refine ⟨List.mem_cons_of_mem _ hrec.1, ?_⟩
            rw [List.indexOf_cons_ne _ (by exact fun h => hw1 h)]
            rw [List.indexOf_cons_ne _ (by exact fun h => hwne2 h)]
            exact Nat.succ_lt_succ hrec.2
          · rw [hrel]
            exact (List.nodup_cons.mp hndr).2
          · rw [hrel]
            intro h0
            cases h0
          · rw [hrel]
            intro u hu
            simp only [Option.some.injEq] at hu
            rw [← hu]
            exact hwrest
          · rw [hrel]
            exact hsubr

/-- Witness for C1 at a concrete lock state: task 0 holds the lock, tasks 1
then 2 wait; two releases grant the lock to 1 strictly before 2. -/
theorem debug_lock_fifo_fair_witness :
    List.Sublist [1, 2] (FIFOLock.mk (some 0) [1, 2]).waiters ∧
      1 ∈ grants ⟨some 0, [1, 2]⟩ [LockEvent.release, LockEvent.release] ∧
      (grants ⟨some 0, [1, 2]⟩ [LockEvent.release, LockEvent.release]).indexOf 1 <
        (grants ⟨some 0, [1, 2]⟩ [LockEvent.release, LockEvent.release]).indexOf 2 := by
  refine ⟨by decide, ?_⟩
  have h := debug_lock_fifo_fair 1 2 [LockEvent.release, LockEvent.release]
    ⟨some 0, [1, 2]⟩ (by decide)
    (by intro h; cases h)
    (by intro s hs; cases hs; decide)
    (by decide) (by decide) (by decide)
  exact h

/-- Phase of one `_hijack_stdin_relay_to_child` handler task running in the
root actor (src/tractor/_debug.py lines 117-131). -/
inductive RelayPhase where
  /-- Suspended in `await debug_lock.acquire()` inside `_acquire_debug_lock`. -/
  | waitingLock
  /-- The lock was obtained, `'Locked'` was yielded, and the task is suspended
  in `await trio.sleep_forever()`. -/
  | sleeping
  /-- The generator has finished (its teardown ran). -/
  | finished
deriving Repr, DecidableEq

/-- Values streamed from the root handler back to the requesting child;
`Msg.locked` embeds the string value `'Locked'`. -/
inductive Msg where
  | locked
deriving Repr, DecidableEq

/-- Finally clause of `_acquire_debug_lock` (lines 111-114), run by task `t`:
`if debug_lock.locked(): debug_lock.release()`. -/
def debugLockFinally (lk : FIFOLock) (t : TaskId) : FIFOLock × Option PyExc :=
  if lk.locked then lk.releaseBy t else (lk, none)

/-- Entry of `_hijack_stdin_relay_to_child` by handler task `t`: the body
first enters `_acquire_debug_lock`, awaiting the statespace debug lock.  When
the lock is obtained the handler yields `'Locked'` and suspends in
`trio.sleep_forever`; otherwise it parks in the lock's FIFO queue having
streamed nothing.  Returns the new lock state, the handler phase, and the
values yielded so far. -/
def relayStart (lk : FIFOLock) (t : TaskId) : FIFOLock × RelayPhase × List Msg :=
  let lk2 := lk.acquire t
  if lk2.holder = some t then (lk2, RelayPhase.sleeping, [Msg.locked])
  else (lk2, RelayPhase.waitingLock, [])

/-- Scheduler resumption of handler task `t` in phase `ph`, the lock now being
in state `lk`: a parked task proceeds past `acquire` exactly when the FIFO
handoff has made it the holder, upon which it yields `'Locked'` and suspends
in `trio.sleep_forever`; a sleeping task never resumes by itself and streams
nothing further. -/
def relayResume (lk : FIFOLock) (t : TaskId) : RelayPhase → RelayPhase × List Msg
  | RelayPhase.waitingLock =>
      if lk.holder = some t then (RelayPhase.sleeping, [Msg.locked])
      else (RelayPhase.waitingLock, [])
  | ph => (ph, [])

/-- Cancellation of handler task `t` (the child closed its end of the hijack
stream): the pending await raises `trio.Cancelled` and the generator unwinds
through the `finally` of `_acquire_debug_lock`; a task still parked on
`acquire` is first removed from the wait queue by trio.  Returns the lock
state after unwinding, an exception if the `finally` raised, and the final
phase. -/
def relayCancel (lk : FIFOLock) (t : TaskId) :
    RelayPhase → (FIFOLock × Option PyExc) × RelayPhase
  | RelayPhase.waitingLock => (debugLockFinally (lk.cancelWait t) t, RelayPhase.finished)
  | RelayPhase.sleeping => (debugLockFinally lk t, RelayPhase.finished)
  | RelayPhase.finished => ((lk, none), RelayPhase.finished)

/-- C2: every invocation of the stdin-hijack RPC handler first acquires the
root's debug lock, streams back exactly the single value `'Locked'` once it
holds the lock, and then suspends indefinitely: before holding the lock it
streams nothing, and in the suspended phase every resumption streams nothing
and leaves it suspended. -/
theorem hijack_relay_protocol (lk : FIFOLock) (t : TaskId) :
    (((relayStart lk t).2.2 = [Msg.locked] ∧
        (relayStart lk t).1.holder = some t ∧
        (relayStart lk t).2.1 = RelayPhase.sleeping) ∨
      ((relayStart lk t).2.2 = [] ∧
        (relayStart lk t).2.1 = RelayPhase.waitingLock ∧
        (relayStart lk t).1.holder ≠ some t ∧
        t ∈ (relayStart lk t).1.waiters)) ∧
    (∀ lk2 : FIFOLock, lk2.holder = some t →
      relayResume lk2 t RelayPhase.waitingLock = (RelayPhase.sleeping, [Msg.locked])) ∧
    (∀ lk2 : FIFOLock, lk2.holder ≠ some t →
      relayResume lk2 t RelayPhase.waitingLock = (RelayPhase.waitingLock, [])) ∧
    (∀ lk2 : FIFOLock, relayResume lk2 t RelayPhase.sleeping =
      (RelayPhase.sleeping, [])) := by
  refine ⟨?_, ?_, ?_, ?_⟩
  · by_cases h : (lk.acquire t).holder = some t
    · left
      simp [relayStart, h]
    · right
      have hh : ∃ s, lk.holder = some s ∧ s ≠ t := by
        cases hl : lk.holder with
        | none => exact absurd (by simp [FIFOLock.acquire, hl]) h
        | some s =>
          refine ⟨s, rfl, ?_⟩
          intro he
          exact h (by simp [FIFOLock.acquire, hl, he])
      obtain ⟨s, hl, hst⟩ := hh
      have hacq : lk.acquire t = { lk with waiters := lk.waiters ++ [t] } := by
        simp [FIFOLock.acquire, hl]
      simp [relayStart, hacq, hl, hst]
  · intro lk2 h
    simp [relayResume, h]
  · intro lk2 h
    simp [relayResume, h]
  · intro lk2
    simp [relayResume]

/-- Witness for C2: a free lock is acquired at once and `'Locked'` streams
out; a parked handler resumes into the sleeping phase when handed the lock,
stays parked otherwise, and a sleeping handler streams nothing on resumption. -/
theorem hijack_relay_protocol_witness :
    relayStart ⟨none, []⟩ 0 = (⟨some 0, []⟩, RelayPhase.sleeping, [Msg.locked]) ∧
      relayResume ⟨some 0, []⟩ 0 RelayPhase.waitingLock =
        (RelayPhase.sleeping, [Msg.locked]) ∧
      relayResume ⟨some 1, [0]⟩ 0 RelayPhase.waitingLock =
        (RelayPhase.waitingLock, []) ∧
      relayResume ⟨some 0, []⟩ 0 RelayPhase.sleeping = (RelayPhase.sleeping, []) := by
  refine ⟨by decide, ?_, ?_, ?_⟩
  · exact (hijack_relay_protocol ⟨none, []⟩ 0).2.1 ⟨some 0, []⟩ rfl
  · exact (hijack_relay_protocol ⟨none, []⟩ 0).2.2.1 ⟨some 1, [0]⟩ (by decide)
  · exact (hijack_relay_protocol ⟨none, []⟩ 0).2.2.2 ⟨some 0, []⟩

/-- C3: on every exit path of `_acquire_debug_lock` — cancellation while
holding (the child closed the stream while the handler slept), cancellation
while still parked, or any error — the unwound handler never remains the
holder of the debug lock; moreover in the normal teardown path (the handler
held the lock and slept) the `finally` releases cleanly and ownership passes
directly to the next queued waiter, if any. -/
theorem relay_cancel_releases_lock (lk : FIFOLock) (t : TaskId) (ph : RelayPhase)
    (hph : ph ≠ RelayPhase.finished)
    (hnd : lk.waiters.Nodup)
    (hto : lk.holder = some t → t ∉ lk.waiters) :
    (relayCancel lk t ph).1.1.holder ≠ some t ∧
    (relayCancel lk t ph).2 = RelayPhase.finished ∧
    (lk.holder = some t → ph = RelayPhase.sleeping →
      (relayCancel lk t ph).1 = (lk.release, none) ∧
      (relayCancel lk t ph).1.1.holder = lk.waiters.head?) := by
  cases ph with
  | finished => exact absurd rfl hph
  | sleeping =>
    refine ⟨?_, rfl, ?_⟩
    · by_cases hh : lk.holder = some t
      · have hnot := hto hh
        simp only [relayCancel, debugLockFinally, FIFOLock.locked, hh,
          Option.isSome_some, if_true, FIFOLock.releaseBy, if_pos hh]
        cases hw : lk.waiters with
        | nil => simp [FIFOLock.release, hw]
        | cons w rest =>
          have hwt : w ≠ t := by
            intro he
            rw [hw] at hnot
            exact hnot (he ▸ List.mem_cons_self w rest)
          simpa [FIFOLock.release, hw] using hwt
      · cases hl : lk.holder with
        | none =>
          simp [relayCancel, debugLockFinally, FIFOLock.locked, hl]
        | some s =>
          rw [hl] at hh
          simp [relayCancel, debugLockFinally, FIFOLock.locked, hl,
            FIFOLock.releaseBy, hh]
    · intro hh _
      constructor
      · simp [relayCancel, debugLockFinally, FIFOLock.locked, hh,
          FIFOLock.releaseBy]
      · simp only [relayCancel, debugLockFinally, FIFOLock.locked, hh,
          Option.isSome_some, if_true, FIFOLock.releaseBy, if_pos hh]
        cases hw : lk.waiters with
        | nil => simp [FIFOLock.release, hw]
        | cons w rest => simp [FIFOLock.release, hw]
  | waitingLock =>
    refine ⟨?_, rfl, ?_⟩
    · have hnotmem : t ∉ (lk.cancelWait t).waiters := by
        simp only [FIFOLock.cancelWait]
        exact hnd.not_mem_erase
      by_cases hh : lk.holder = some t
      · have hcw : (lk.cancelWait t).holder = some t := hh
        simp only [relayCancel, debugLockFinally, FIFOLock.locked, hcw,
          Option.isSome_some, if_true, FIFOLock.releaseBy, if_pos hcw]
        cases hw : (lk.cancelWait t).waiters with
        | nil => simp [FIFOLock.release, hw]
        | cons w rest =>
          have hwt : w ≠ t := by
            intro he
            rw [hw] at hnotmem
            exact hnotmem (he ▸ List.mem_cons_self w rest)
          simpa [FIFOLock.release, hw] using hwt
      · cases hl : lk.holder with
        | none =>
          simp [relayCancel, debugLockFinally, FIFOLock.locked,
            FIFOLock.cancelWait, hl]
        | some s =>
          rw [hl] at hh
          have hcw : (lk.cancelWait t).holder = some s := hl
          simp [relayCancel, debugLockFinally, FIFOLock.locked, hcw,
            FIFOLock.releaseBy, hh]
    · intro hh hcontra
      cases hcontra

/-- Witness for C3: handler task 0 holds the lock with task 1 queued and is
cancelled in its sleep; the lock is handed to task 1 and no exception is
raised. -/
theorem relay_cancel_releases_lock_witness :
    RelayPhase.sleeping ≠ RelayPhase.finished ∧
      (relayCancel ⟨some 0, [1]⟩ 0 RelayPhase.sleeping).1.1.holder ≠ some 0 ∧
      (relayCancel ⟨some 0, [1]⟩ 0 RelayPhase.sleeping).1 =
        ((FIFOLock.mk (some 0) [1]).release, none) := by
  have h := relay_cancel_releases_lock ⟨some 0, [1]⟩ 0 RelayPhase.sleeping
    (by decide) (by decide) (fun _ => by decide)
  exact ⟨by decide, h.1, (h.2.2 rfl rfl).1⟩

/-- Python exception values as `_maybe_enter_pm` classifies them:
`bdb.BdbQuit`, `trio.Cancelled`, any other leaf exception (tagged by a code),
and `trio.MultiError` aggregates. -/
inductive Err where
  | bdbQuit
  | cancelled
  | other (code : Nat)
  | multi (errs : List Err)

/-- The `isinstance(err, bdb.BdbQuit)` test. -/
def isBdbQuit : Err → Bool
  | Err.bdbQuit => true
  | _ => false

mutual
/-- Embeds `trio.MultiError.filter` applied with the handler
`lambda exc: exc if not isinstance(exc, trio.Cancelled) else None` of
`_maybe_enter_pm` (src/tractor/_debug.py lines 255-258): `Cancelled` leaves
are removed, aggregates are filtered recursively, an aggregate left with a
single member collapses to it, and an aggregate left empty becomes `None`. -/
def filterNotCancelled : Err → Option Err
  | Err.cancelled => none
  | Err.multi errs =>
      match filterNotCancelledList errs with
      | [] => none
      | [e] => some e
      | es => some (Err.multi es)
  | Err.bdbQuit => some Err.bdbQuit
  | Err.other code => some (Err.other code)

/-- Filtering of the member list of a `trio.MultiError`. -/
def filterNotCancelledList : List Err → List Err
  | [] => []
  | e :: es =>
      match filterNotCancelled e with
      | none => filterNotCancelledList es
      | some e2 => e2 :: filterNotCancelledList es
end

mutual
/-- Reading of the claim's phrase "an error consisting only of cancellation":
every leaf of the exception is a `trio.Cancelled`. -/
def allCancelled : Err → Bool
  | Err.cancelled => true
  | Err.multi errs => allCancelledList errs
  | Err.bdbQuit => false
  | Err.other _ => false

/-- Every member of the list consists only of cancellations. -/
def allCancelledList : List Err → Bool
  | [] => true
  | e :: es => allCancelled e && allCancelledList es
end

mutual
theorem filterNotCancelled_isNone (e : Err) :
    (filterNotCancelled e).isNone = allCancelled e :=
  match e with
  | Err.cancelled => by simp [filterNotCancelled, allCancelled]
  | Err.bdbQuit => by simp [filterNotCancelled, allCancelled]
  | Err.other c => by simp [filterNotCancelled, allCancelled]
  | Err.multi errs => by
      have hl := filterNotCancelledList_isEmpty errs
      simp only [filterNotCancelled, allCancelled, ← hl]
      cases h : filterNotCancelledList errs with
      | nil => simp
      | cons x xs =>
        cases xs with
        | nil => simp
        | cons y ys => simp

theorem filterNotCancelledList_isEmpty (es : List Err) :
    (filterNotCancelledList es).isEmpty = allCancelledList es :=
  match es with
  | [] => by simp [filterNotCancelledList, allCancelledList]
  | e :: rest => by
      have he := filterNotCancelled_isNone e
      have hr := filterNotCancelledList_isEmpty rest
      simp only [filterNotCancelledList, allCancelledList, ← he, ← hr]
      cases h : filterNotCancelled e with
      | none => simp
      | some e2 => simp
end

/-- Embeds the guard of `_maybe_enter_pm` (src/tractor/_debug.py lines
243-259): post-mortem engages when `_state.debug_mode()` is on, the error is
not a `bdb.BdbQuit`, and `trio.MultiError.filter` leaves a non-`Cancelled`
residue. -/
def maybeEnterPm (debugMode : Bool) (err : Err) : Bool :=
  debugMode && !(isBdbQuit err) && (filterNotCancelled err).isSome

/-- Statement of claim C4 exactly as written: engage post-mortem iff debug
mode is enabled and the error does not consist only of cancellations. -/
def pmClaimC4 (debugMode : Bool) (err : Err) : Bool :=
  debugMode && !(allCancelled err)

/-- Counterexample to C4 as stated: with debug mode on and the error being
`bdb.BdbQuit` — which is not a cancellation — the claim demands engagement
but `_maybe_enter_pm` declines. -/
theorem maybe_enter_pm_claim_counterexample :
    pmClaimC4 true Err.bdbQuit = true ∧ maybeEnterPm true Err.bdbQuit = false :=
  ⟨rfl, rfl⟩

/-- Observable actions of the `_bp` coroutine of `_breakpoint`
(src/tractor/_debug.py lines 172-212) over a full debugger session. -/
inductive BpAction where
  /-- `actor._service_n.start(wait_for_parent_stdin_hijack)` — the child path
  schedules the stdin-hijack request to the parent. -/
  | startHijack
  /-- The started hijack task received the `'Locked'` stream value, passed the
  assert and called `task_status.started()`. -/
  | observeLocked
  /-- The root-path `_lock` task acquired the local debug lock inside
  `_acquire_debug_lock` and called `task_status.started()`. -/
  | acquireLocal
  /-- `debug_func(actor)` — the debugger console is entered. -/
  | invokeDebugFunc
  /-- `actor.statespace['_in_debug'] = False` in the `finally` of
  `wait_for_parent_stdin_hijack`. -/
  | resetInDebug
deriving Repr, DecidableEq

/-- The slice of actor state read and written by `_bp`: whether
`actor._parent_chan` is set (a child actor) and the `'_in_debug'` statespace
entry, `none` while the key is absent. -/
structure BpActor where
  parentChan : Bool
  inDebug : Option Bool
deriving Repr, DecidableEq

/-- Embeds a full run of `_bp` through the end of the debugger session.  The
`setdefault` call materialises the `'_in_debug'` key; a set flag
short-circuits into a no-op return.  Otherwise the flag is set and, on the
child path (`actor._parent_chan` set), `wait_for_parent_stdin_hijack` is
started — its `task_status.started()` fires only once it has observed
`'Locked'`, and its `finally` resets the flag after the debugger releases
`do_unlock` — while on the root path the `_lock` task is started, whose
`started()` fires once the local debug lock is acquired and which never
touches the flag again.  `debug_func` runs after `started()`.  Returns the
final actor state and the ordered trace of actions. -/
def bpRun (a : BpActor) : BpActor × List BpAction :=
  let flag := a.inDebug.getD false
  let a1 : BpActor := { a with inDebug := some flag }
  if flag then (a1, [])
  else if a.parentChan then
    ({ a1 with inDebug := some false },
      [BpAction.startHijack, BpAction.observeLocked, BpAction.invokeDebugFunc,
        BpAction.resetInDebug])
  else
    ({ a1 with inDebug := some true },
      [BpAction.acquireLocal, BpAction.invokeDebugFunc])

/-- Action trace of one `_bp` run. -/
def bpTrace (a : BpActor) : List BpAction := (bpRun a).2

/-- Scans a `_bp` trace checking that every debugger invocation happens while
an acquisition marker (a `'Locked'` observation or a local debug-lock
acquisition) has already occurred. -/
def serialisedFrom (held : Bool) : List BpAction → Bool
  | [] => true
  | BpAction.observeLocked :: rest => serialisedFrom true rest
  | BpAction.acquireLocal :: rest => serialisedFrom true rest
  | BpAction.invokeDebugFunc :: rest => held && serialisedFrom held rest
  | _ :: rest => serialisedFrom held rest

/-- A trace is serialised through the debug mutex when no debugger invocation
precedes an acquisition marker. -/
def serialised (tr : List BpAction) : Bool := serialisedFrom false tr

/-- Shared helper: once the `'_in_debug'` flag is set, `_bp` is a no-op. -/
theorem bpRun_noop_of_set (a : BpActor) (h : a.inDebug = some true) :
    bpRun a = (a, []) := by
  cases a with
  | mk pc dbg =>
    simp only at h
    subst h
    simp [bpRun]

/-- C4, amended: `_maybe_enter_pm` engages post-mortem iff debug mode is
enabled, the error is not a `bdb.BdbQuit`, and the error does not consist
only of cancellations; and every engagement — which runs `post_mortem`, i.e.
`_breakpoint(_post_mortem)` — is serialised through the debug mutex, its
`_bp` trace never invoking the debugger before an acquisition of the lock. -/
theorem maybe_enter_pm_iff (d : Bool) (e : Err) :
    (maybeEnterPm d e = true ↔
      (d = true ∧ isBdbQuit e = false ∧ allCancelled e = false)) ∧
    (∀ a : BpActor, serialised (bpTrace a) = true) := by
  constructor
  · have hiso : (filterNotCancelled e).isSome = !(allCancelled e) := by
      rw [← filterNotCancelled_isNone e]
      cases filterNotCancelled e <;> simp
    simp only [maybeEnterPm, hiso, Bool.and_eq_true, Bool.not_eq_true']
    tauto
  · intro a
    cases a with
    | mk pc dbg =>
      cases dbg with
      | none => cases pc <;> simp [bpTrace, bpRun, serialised, serialisedFrom]
      | some b =>
        cases b <;> cases pc <;>
          simp [bpTrace, bpRun, serialised, serialisedFrom]

/-- C5: a second debugger-entry attempt while the actor's local `'_in_debug'`
statespace flag is set is a no-op: `_bp` returns with the actor state
unchanged and an empty action trace — in particular it neither starts a lock
acquisition nor invokes the debugger function. -/
theorem bp_reentry_noop (a : BpActor) (h : a.inDebug = some true) :
    bpRun a = (a, []) ∧
      BpAction.invokeDebugFunc ∉ bpTrace a ∧
      BpAction.startHijack ∉ bpTrace a ∧
      BpAction.acquireLocal ∉ bpTrace a := by
  have hrun := bpRun_noop_of_set a h
  refine ⟨hrun, ?_, ?_, ?_⟩ <;> simp [bpTrace, hrun]

/-- Witness for C5: an actor that is already in debug. -/
theorem bp_reentry_noop_witness :
    (BpActor.mk true (some true)).inDebug = some true ∧
      bpRun ⟨true, some true⟩ = (⟨true, some true⟩, []) :=
  ⟨rfl, (bp_reentry_noop ⟨true, some true⟩ rfl).1⟩

/-- C7: in every `_bp` trace, a debugger invocation occurs only after a prior
observation of `'Locked'` (child path) or a prior acquisition of the local
debug lock (root path). -/
theorem bp_debugger_only_after_locked (a : BpActor) (i : Nat)
    (h : (bpTrace a).get? i = some BpAction.invokeDebugFunc) :
    ∃ j, j < i ∧
      ((bpTrace a).get? j = some BpAction.observeLocked ∨
        (bpTrace a).get? j = some BpAction.acquireLocal) := by
  cases a with
  | mk pc dbg =>
    cases hdf : dbg.getD false with
    | true =>
      rw [show bpTrace ⟨pc, dbg⟩ = [] from by simp [bpTrace, bpRun, hdf]] at h
      simp at h
    | false =>
      cases pc with
      | true =>
        have htr : bpTrace ⟨true, dbg⟩ =
            [BpAction.startHijack, BpAction.observeLocked,
              BpAction.invokeDebugFunc, BpAction.resetInDebug] := by
          simp [bpTrace, bpRun, hdf]
        rw [htr] at h ⊢
        refine ⟨1, ?_, Or.inl rfl⟩
        rcases i with _ | _ | _ | _ | i
        · simp at h
        · simp at h
        · exact Nat.one_lt_two
        · simp at h
        · simp at h
      | false =>
        have htr : bpTrace ⟨false, dbg⟩ =
            [BpAction.acquireLocal, BpAction.invokeDebugFunc] := by
          simp [bpTrace, bpRun, hdf]
        rw [htr] at h ⊢
        refine ⟨0, ?_, Or.inr rfl⟩
        rcases i with _ | _ | i
        · simp at h
        · exact Nat.zero_lt_one
        · simp at h

/-- Witness for C7: a root actor's first breakpoint invokes the debugger at
trace position 1, after the lock acquisition at position 0. -/
theorem bp_debugger_only_after_locked_witness :
    (bpTrace ⟨false, none⟩).get? 1 = some BpAction.invokeDebugFunc ∧
      ∃ j, j < 1 ∧
        ((bpTrace ⟨false, none⟩).get? j = some BpAction.observeLocked ∨
          (bpTrace ⟨false, none⟩).get? j = some BpAction.acquireLocal) :=
  ⟨rfl, bp_debugger_only_after_locked ⟨false, none⟩ 1 rfl⟩

/-- C10: in the root actor (no parent channel) the `'_in_debug'` flag, once a
first debugger entry has set it, is never reset — the resetting action exists
only on the child path — so every subsequent `_bp` call is a no-op with an
empty trace. -/
theorem bp_root_flag_never_reset (a : BpActor)
    (hroot : a.parentChan = false)
    (hfirst : a.inDebug ≠ some true) :
    (bpRun a).1.inDebug = some true ∧
      BpAction.resetInDebug ∉ bpTrace a ∧
      bpRun (bpRun a).1 = ((bpRun a).1, []) ∧
      (∀ b : BpActor, BpAction.resetInDebug ∈ bpTrace b → b.parentChan = true) := by
  cases a with
  | mk pc dbg =>
    simp only at hroot
    subst hroot
    have hflag : dbg = none ∨ dbg = some false := by
      cases dbg with
      | none => exact Or.inl rfl
      | some b => cases b with
        | false => exact Or.inr rfl
        | true => exact absurd rfl hfirst
    have hrun : bpRun ⟨false, dbg⟩ =
        (⟨false, some true⟩, [BpAction.acquireLocal, BpAction.invokeDebugFunc]) := by
      rcases hflag with hf | hf <;> simp [bpRun, hf]
    refine ⟨by rw [hrun], ?_, ?_, ?_⟩
    · simp [bpTrace, hrun]
    · rw [hrun]
      exact bpRun_noop_of_set ⟨false, some true⟩ rfl
    · intro b hb
      cases b with
      | mk pcb dbgb =>
        cases pcb with
        | true => rfl
        | false =>
          exfalso
          cases dbgb with
          | none => simp [bpTrace, bpRun] at hb
          | some bb => cases bb <;> simp [bpTrace, bpRun] at hb

/-- Witness for C10: a fresh root actor enters the debugger once; afterwards
the flag is stuck and re-entry is a no-op. -/
theorem bp_root_flag_never_reset_witness :
    (bpRun ⟨false, none⟩).1.inDebug = some true ∧
      bpRun (bpRun ⟨false, none⟩).1 = ((bpRun ⟨false, none⟩).1, []) :=
  ⟨(bp_root_flag_never_reset ⟨false, none⟩ rfl (by simp)).1,
    (bp_root_flag_never_reset ⟨false, none⟩ rfl (by simp)).2.2.1⟩

/-- Phase of the child-side `wait_for_parent_stdin_hijack` task
(src/tractor/_debug.py lines 143-170). -/
inductive ChildPhase where
  /-- Iterating the hijack stream, awaiting its first value. -/
  | requesting
  /-- `task_status.started()` was called; the task sits inside
  `with trio.CancelScope(shield=True): await do_unlock.wait()`. -/
  | waitingUnlock
  /-- `do_unlock` fired: the task broke out of the loop, closed the stream
  and ran its `finally`. -/
  | released
  /-- The task was torn down before `started()` (cancellation or a failed
  assert) and ran its `finally`. -/
  | aborted
deriving Repr, DecidableEq

/-- Child-side state: the task phase and the actor's `'_in_debug'` flag. -/
structure ChildState where
  phase : ChildPhase
  inDebug : Bool
deriving Repr, DecidableEq

/-- Scheduler deliveries to the child task. -/
inductive ChildEvent where
  /-- The `'Locked'` stream value arrives from the parent. -/
  | recvLocked
  /-- A cancellation of the enclosing scope (e.g. the parent nursery
  cancelling) reaches the task. -/
  | cancelDelivered
  /-- The debugger teardown hook fired `do_unlock.set()`. -/
  | unlockSet
deriving Repr, DecidableEq

/-- One delivery to the child task, embedding lines 143-170: while
`requesting`, a received `'Locked'` passes the assert and calls `started()`,
entering the shielded wait, whereas a delivered cancellation aborts the task
through its `finally` (resetting the in-debug flag).  While `waitingUnlock`,
the wait sits inside `trio.CancelScope(shield=True)`, so a delivered
cancellation does not interrupt it; only `do_unlock` ends the wait, after
which the task breaks out, the stream is closed and the `finally` resets the
flag. -/
def childStep (st : ChildState) : ChildEvent → ChildState
  | ChildEvent.recvLocked =>
      match st.phase with
      | ChildPhase.requesting => { st with phase := ChildPhase.waitingUnlock }
      | _ => st
  | ChildEvent.cancelDelivered =>
      match st.phase with
      | ChildPhase.requesting => { phase := ChildPhase.aborted, inDebug := false }
      | _ => st
  | ChildEvent.unlockSet =>
      match st.phase with
      | ChildPhase.waitingUnlock => { phase := ChildPhase.released, inDebug := false }
      | _ => st

/-- Folding a sequence of deliveries over the child task. -/
def childRun (st : ChildState) : List ChildEvent → ChildState
  | [] => st
  | e :: es => childRun (childStep st e) es

/-- C6: while the child holds the tty lock (it observed `'Locked'` and waits
for debugger release in the shielded scope), any sequence of delivered
cancellations leaves it waiting — the shield ignores them — and only the
debugger-release event `do_unlock.set()` moves it on. -/
theorem child_wait_shielded (st : ChildState) (evs : List ChildEvent)
    (hph : st.phase = ChildPhase.waitingUnlock)
    (hc : ∀ e ∈ evs, e = ChildEvent.cancelDelivered) :
    childRun st evs = st ∧
      childStep st ChildEvent.unlockSet =
        { phase := ChildPhase.released, inDebug := false } := by
  constructor
  · induction evs with
    | nil => rfl
    | cons e es ih =>
      have he : e = ChildEvent.cancelDelivered := hc e (List.mem_cons_self e es)
      have hstep : childStep st e = st := by
        rw [he]
        simp [childStep, hph]
      rw [childRun, hstep]
      exact ih (fun e2 h2 => hc e2 (List.mem_cons_of_mem e h2))
  · simp [childStep, hph]

/-- Witness for C6: a waiting child absorbs two cancellations and is released
only by the unlock event. -/
theorem child_wait_shielded_witness :
    childRun ⟨ChildPhase.waitingUnlock, true⟩
        [ChildEvent.cancelDelivered, ChildEvent.cancelDelivered] =
      ⟨ChildPhase.waitingUnlock, true⟩ ∧
      childStep ⟨ChildPhase.waitingUnlock, true⟩ ChildEvent.unlockSet =
        ⟨ChildPhase.released, false⟩ :=
  child_wait_shielded ⟨ChildPhase.waitingUnlock, true⟩
    [ChildEvent.cancelDelivered, ChildEvent.cancelDelivered] rfl (by decide)

/-- Embeds `_state.current_actor` (src/tractor/_state.py lines 18-23): raise
`RuntimeError` when the process-local `_current_actor` is still unset,
otherwise return it. -/
def current_actor {α : Type} (currentActor : Option α) : Except PyExc α :=
  match currentActor with
  | none => Except.error PyExc.runtimeError
  | some a => Except.ok a

/-- C8: accessing the process-local actor before initialisation is an error —
`current_actor` raises `RuntimeError` on the uninitialised state — and once
initialised it returns exactly the stored actor instance. -/
theorem current_actor_spec (α : Type) :
    current_actor (none : Option α) = Except.error PyExc.runtimeError ∧
      ∀ x : α, current_actor (some x) = Except.ok x :=
  ⟨rfl, fun _ => rfl⟩

/-- Semantics of `trio.fail_after` over abstract completion times: the result
of the block if it completes within the deadline (measured in seconds),
otherwise a `trio.TooSlowError`; `none` stands for a block that never
completes. -/
def failAfter (deadline : Nat) (completesAt : Option Nat) : Except PyExc Nat :=
  match completesAt with
  | none => Except.error PyExc.tooSlowError
  | some tc => if tc ≤ deadline then Except.ok tc else Except.error PyExc.tooSlowError

/-- Modelled from the spec: the child's deadline-bounded tty-lock request
`with trio.fail_after(1): agen = await portal.run(...)` (src/tractor/_debug.py
lines 152-157).  `Portal.run` itself lives in `_portal.py`, which is not part
of this source tree; per spec section 4.4 it completes when the first inbound
frame of the RPC arrives, and for the stdin-hijack RPC that frame is the
`'Locked'` yield which the root sends only once the debug lock is acquired
(see `relayStart`/`relayResume`).  `acquisitionTime` is therefore the time at
which the root's lock acquisition completes, `none` when it never does. -/
def childTtyRequest (acquisitionTime : Option Nat) : Except PyExc Nat :=
  failAfter 1 acquisitionTime

/-- C9: the parent-stdio acquisition is bounded by the 1-second deadline:
whenever the acquisition exceeds the deadline — or never completes — the
child's request fails with `trio.TooSlowError` instead of hanging, and within
the deadline it succeeds. -/
theorem child_tty_request_bounded (ta : Option Nat) :
    (∀ t : Nat, ta = some t → 1 < t →
      childTtyRequest ta = Except.error PyExc.tooSlowError) ∧
    (ta = none → childTtyRequest ta = Except.error PyExc.tooSlowError) ∧
    (∀ t : Nat, ta = some t → t ≤ 1 → childTtyRequest ta = Except.ok t) := by
  refine ⟨?_, ?_, ?_⟩
  · intro t ht hgt
    subst ht
    simp [childTtyRequest, failAfter, Nat.not_le_of_lt hgt]
  · intro ht
    subst ht
    rfl
  · intro t ht hle
    subst ht
    simp [childTtyRequest, failAfter, hle]

/-- Witness for C9: an acquisition that would take 5 seconds times out. -/
theorem child_tty_request_bounded_witness :
    childTtyRequest (some 5) = Except.error PyExc.tooSlowError ∧
      childTtyRequest (some 1) = Except.ok 1 :=
  ⟨(child_tty_request_bounded (some 5)).1 5 rfl (by decide),
    (child_tty_request_bounded (some 1)).2.2 1 rfl (by decide)⟩

end Tractor
